import Mathlib

/-!
# TWI/I2C polling driver (`i2c.c`, `i2c.h`)

A shallow embedding of the driver and the properties of its register
traffic, its timeout handling and its error-code bitmask.

* Registers are memory-mapped: every access is an observable event, so the
  state carries the chronological log of register accesses.
* The bus controller is an arbitrary deterministic device: what it presents
  on a read is a function of everything that happened on the register
  interface so far.
* `uint8_t` values are `Nat` with an explicit `% 256`; `unsigned long` on AVR
  is 32 bits wide.
-/

namespace I2C

/-! ## Compile-time configuration -/

/-- The three configuration macros `F_CPU` (i2c.c), `F_I2C` and `PSC_I2C` (i2c.h). -/
structure Config where
  F_CPU : Nat
  F_I2C : Nat
  PSC_I2C : Nat
  deriving DecidableEq, Repr

/-- The configuration in the sources: 16 MHz CPU, 400 kHz bus, prescale 1. -/
def shipped : Config := ⟨16000000, 400000, 1⟩

/-- Width of `unsigned long` arithmetic in the compiled code (avr-gcc). -/
def ULONG : Nat := 2 ^ 32

/-- Width of `uintmax_t`, in which `#if` evaluates unsigned expressions. -/
def UINTMAX : Nat := 2 ^ 64

/-- The macro `SET_TWBR`, `(F_CPU/F_I2C-16UL)/(PSC_I2C*2UL)`, as the preprocessor
evaluates it inside `#elif SET_TWBR < 0 || SET_TWBR > 255`: a quotient of
unsigned values, the subtraction wrapping. -/
def SET_TWBR (c : Config) : Nat :=
  ((c.F_CPU / c.F_I2C + (UINTMAX - 16)) % UINTMAX) / ((c.PSC_I2C * 2) % UINTMAX)

/-- The `#if`/`#elif` pair of i2c.c lines 41-45: true when neither `#error` fires.
`SET_TWBR < 0` never holds for an unsigned value. -/
def buildCheck (c : Config) : Bool :=
  !(c.PSC_I2C != 1 && c.PSC_I2C != 4 && c.PSC_I2C != 16 && c.PSC_I2C != 64) &&
  !(decide (SET_TWBR c > 255))

/-- The expression `(uint8_t)SET_TWBR` of `i2c_init` after macro expansion:
`(uint8_t)(F_CPU/F_I2C-16UL)/(PSC_I2C*2UL)`. The cast binds tighter than the
division, so it truncates the numerator only; the quotient is then stored in
the 8-bit register. -/
def TWBR_written (c : Config) : Nat :=
  ((((c.F_CPU / c.F_I2C + (ULONG - 16)) % ULONG) % 256) / ((c.PSC_I2C * 2) % ULONG)) % 256

/-- The initial value of every `timeout` counter, `F_CPU/F_I2C*2.0` stored in a
`uint16_t`: an integer quotient doubled. (C defines the conversion only below
65536; the shipped value is 80.) -/
def timeoutInit (c : Config) : Nat :=
  c.F_CPU / c.F_I2C * 2

/-! ## Register interface -/

/-- The five TWI registers (`TWBR0`, `TWCR0`, `TWDR0`, `TWSR0`, `TWAR0`). -/
inductive Reg where
  | TWBR | TWCR | TWDR | TWSR | TWAR
  deriving DecidableEq, Repr

/-- One access to a register, with the value written or read. -/
inductive Access where
  | write (r : Reg) (v : Nat)
  | read (r : Reg) (v : Nat)
  deriving DecidableEq, Repr

/-- A bus controller: the value a register presents on a read, given all
register accesses made so far (oldest first). -/
abbrev Controller := List Access → Reg → Nat

/-- Modelled from the spec: the bit numbers of `TWCR` live in the device header
`avr/io.h`, which is not among the sources. The spec names the bits
(completion flag, acknowledge-enable, start-request, stop-request, enable);
the comment in `i2c_start`, `TWCRn=1x10x10x`, places the completion flag
TWINT at bit 7, TWSTA at bit 5, TWSTO at bit 4 and TWEN at bit 2. -/
def TWINT : Nat := 7
/-- Modelled from the spec: acknowledge-enable bit of `TWCR` (`avr/io.h`), the
bit between TWINT and TWSTA in the ATmega layout. -/
def TWEA : Nat := 6
/-- Modelled from the spec: start-request bit of `TWCR` (`avr/io.h`). -/
def TWSTA : Nat := 5
/-- Modelled from the spec: stop-request bit of `TWCR` (`avr/io.h`). -/
def TWSTO : Nat := 4
/-- Modelled from the spec: controller-enable bit of `TWCR` (`avr/io.h`). -/
def TWEN : Nat := 2

/-- Error-code bit numbers of i2c.h lines 28-32. -/
def I2C_START : Nat := 0
/-- Bit 1: timeout of the device-address phase. -/
def I2C_SENDADRESS : Nat := 1
/-- Bit 2: timeout of a byte transmission. -/
def I2C_BYTE : Nat := 2
/-- Bit 3: timeout of a read with acknowledge. -/
def I2C_READACK : Nat := 3
/-- Bit 4: timeout of a read without acknowledge. -/
def I2C_READNACK : Nat := 4

/-- Driver state: the global `I2C_ErrorCode`, the log of register accesses
(oldest first), and a record of every poll loop that was run: the error bit
of the handshake step and whether the loop left through its timeout branch.
The record is never read by the driver. -/
structure State where
  I2C_ErrorCode : Nat
  log : List Access
  steps : List (Nat × Bool)
  deriving DecidableEq, Repr

/-- Program start: `I2C_ErrorCode` is zero-initialised and nothing has happened. -/
def State.initial : State := ⟨0, [], []⟩

/-- A store to a register: the low eight bits of the value reach the device. -/
def writeReg (r : Reg) (v : Nat) (s : State) : State :=
  { s with log := s.log ++ [Access.write r (v % 256)] }

/-- A load from a register: the controller decides the value. -/
def readReg (hw : Controller) (r : Reg) (s : State) : Nat × State :=
  let v := hw s.log r % 256
  (v, { s with log := s.log ++ [Access.read r v] })

/-! ## The poll loop -/

/-- The loop test `(TWCR & (1 << TWINT)) == 0` on a value read from `TWCR`. -/
def flagClear (v : Nat) : Bool :=
  (v &&& (1 <<< TWINT)) == 0

/-- How a poll loop ended: the state, the counter left in `timeout`, and whether
the enclosing function executed `return` from the timeout branch. -/
structure PollOut where
  st : State
  timeout : Nat
  returned : Bool
  deriving DecidableEq, Repr

/-- The loop shared by all handshakes:
`while((TWCR & (1 << TWINT)) == 0 && timeout != 0){ timeout--; if(timeout == 0){
I2C_ErrorCode |= (1 << bit); return; } }`, started with `timeout` at the
given value. Each evaluation of the condition reads `TWCR` once. -/
def pollLoop (hw : Controller) (bit : Nat) : Nat → State → PollOut
  | 0, s =>
    -- `timeout != 0` fails (or the flag is set): the loop is left at once
    let r := readReg hw Reg.TWCR s
    ⟨{ r.2 with steps := r.2.steps ++ [(bit, false)] }, 0, false⟩
  | t + 1, s =>
    let r := readReg hw Reg.TWCR s
    if flagClear r.1 then
      -- body: `timeout--` leaves `t`
      if t == 0 then
        ⟨{ r.2 with
            I2C_ErrorCode := (r.2.I2C_ErrorCode ||| (1 <<< bit)) % 256,
            steps := r.2.steps ++ [(bit, true)] }, 0, true⟩
      else pollLoop hw bit t r.2
    else
      ⟨{ r.2 with steps := r.2.steps ++ [(bit, false)] }, t + 1, false⟩

/-! ## The driver -/

/-- `i2c_init`: prescale code to `TWSR`, divisor to `TWBR`, enable bit to `TWCR`. -/
def i2c_init (c : Config) (s : State) : State :=
  let s1 :=
    if c.PSC_I2C = 4 then writeReg Reg.TWSR 0x1 s
    else if c.PSC_I2C = 16 then writeReg Reg.TWSR 0x2 s
    else if c.PSC_I2C = 64 then writeReg Reg.TWSR 0x3 s
    else writeReg Reg.TWSR 0x00 s
  let s2 := writeReg Reg.TWBR (TWBR_written c) s1
  writeReg Reg.TWCR (1 <<< TWEN) s2

/-- `i2c_start`: START condition, poll, then address byte, poll. The variable
`timeout` is assigned once, before the first loop; the second loop goes on
with what the first one left. -/
def i2c_start (hw : Controller) (c : Config) (i2c_addr : Nat) (s : State) : State :=
  let s1 := writeReg Reg.TWCR ((1 <<< TWINT) ||| (1 <<< TWSTA) ||| (1 <<< TWEN)) s
  let p1 := pollLoop hw I2C_START (timeoutInit c) s1
  if p1.returned then p1.st
  else
    let s2 := writeReg Reg.TWDR (i2c_addr % 256) p1.st
    let s3 := writeReg Reg.TWCR ((1 <<< TWINT) ||| (1 <<< TWEN)) s2
    (pollLoop hw I2C_SENDADRESS p1.timeout s3).st

/-- `i2c_stop`: one write, no poll. -/
def i2c_stop (s : State) : State :=
  writeReg Reg.TWCR ((1 <<< TWINT) ||| (1 <<< TWSTO) ||| (1 <<< TWEN)) s

/-- `i2c_byte`: data byte, trigger, poll. -/
def i2c_byte (hw : Controller) (c : Config) (byte : Nat) (s : State) : State :=
  let s1 := writeReg Reg.TWDR (byte % 256) s
  let s2 := writeReg Reg.TWCR ((1 <<< TWINT) ||| (1 <<< TWEN)) s1
  (pollLoop hw I2C_BYTE (timeoutInit c) s2).st

/-- `i2c_readAck`: trigger with `TWEA`, poll, then `return TWDR` (0 on timeout). -/
def i2c_readAck (hw : Controller) (c : Config) (s : State) : Nat × State :=
  let s1 := writeReg Reg.TWCR ((1 <<< TWINT) ||| (1 <<< TWEN) ||| (1 <<< TWEA)) s
  let p := pollLoop hw I2C_READACK (timeoutInit c) s1
  if p.returned then (0, p.st) else readReg hw Reg.TWDR p.st

/-- `i2c_readNAck`: trigger without `TWEA`, poll, then `return TWDR` (0 on timeout). -/
def i2c_readNAck (hw : Controller) (c : Config) (s : State) : Nat × State :=
  let s1 := writeReg Reg.TWCR ((1 <<< TWINT) ||| (1 <<< TWEN)) s
  let p := pollLoop hw I2C_READNACK (timeoutInit c) s1
  if p.returned then (0, p.st) else readReg hw Reg.TWDR p.st

/-- `i2c_tx_start` calls `i2c_init`. -/
def i2c_tx_start (c : Config) (s : State) : State := i2c_init c s
/-- `i2c_tx_address` calls `i2c_start`. -/
def i2c_tx_address (hw : Controller) (c : Config) (addr : Nat) (s : State) : State :=
  i2c_start hw c addr s
/-- `i2c_tx_byte` calls `i2c_byte`. -/
def i2c_tx_byte (hw : Controller) (c : Config) (ch : Nat) (s : State) : State :=
  i2c_byte hw c ch s
/-- `i2c_tx_stop` calls `i2c_stop`. -/
def i2c_tx_stop (s : State) : State := i2c_stop s

/-! ## Call sequences -/

/-- The ten entry points of the driver; arguments are converted to `uint8_t`
at the call. Return values of the two reads are dropped here. -/
inductive Op where
  | init | start (addr : Nat) | stop | byte (b : Nat) | readAck | readNAck
  | tx_start | tx_address (addr : Nat) | tx_byte (ch : Nat) | tx_stop
  deriving DecidableEq, Repr

/-- One call of the driver. -/
def exec (hw : Controller) (c : Config) : Op → State → State
  | Op.init, s => i2c_init c s
  | Op.start a, s => i2c_start hw c a s
  | Op.stop, s => i2c_stop s
  | Op.byte b, s => i2c_byte hw c b s
  | Op.readAck, s => (i2c_readAck hw c s).2
  | Op.readNAck, s => (i2c_readNAck hw c s).2
  | Op.tx_start, s => i2c_tx_start c s
  | Op.tx_address a, s => i2c_tx_address hw c a s
  | Op.tx_byte b, s => i2c_tx_byte hw c b s
  | Op.tx_stop, s => i2c_tx_stop s

/-- A sequence of calls, executed in program order. -/
def run (hw : Controller) (c : Config) : List Op → State → State
  | [], s => s
  | op :: ops, s => run hw c ops (exec hw c op s)

/-! ## Observations on a log -/

/-- The register writes of a log, in order. -/
def writesOf : List Access → List (Reg × Nat)
  | [] => []
  | Access.write r v :: l => (r, v) :: writesOf l
  | Access.read _ _ :: l => writesOf l

/-- A poll is a read of the control register. -/
def isPoll : Access → Bool
  | Access.read Reg.TWCR _ => true
  | _ => false

/-- Number of polls in a log. -/
def pollsOf (l : List Access) : Nat :=
  (l.filter isPoll).length

/-- Number of transfer triggers in a log: writes to the control register that
are directly followed by a poll of it. -/
def triggersOf : List Access → Nat
  | [] => 0
  | Access.write Reg.TWCR _ :: Access.read Reg.TWCR v :: l =>
    triggersOf (Access.read Reg.TWCR v :: l) + 1
  | _ :: l => triggersOf l

/-- The log after `n` further consecutive polls, starting from log `h`. -/
def afterPolls (hw : Controller) : Nat → List Access → List Access
  | 0, h => h
  | n + 1, h => afterPolls hw n (h ++ [Access.read Reg.TWCR (hw h Reg.TWCR % 256)])

/-- The value that poll number `k + 1` of a run of consecutive polls reads,
the run starting from log `h`. -/
def pollValue (hw : Controller) (h : List Access) (k : Nat) : Nat :=
  hw (afterPolls hw k h) Reg.TWCR % 256

/-- Outcome of the latest execution of the handshake step with error bit `bit`:
`some true` when it timed out, `some false` when its loop ended otherwise,
`none` when the step never ran. -/
def lastOutcome (bit : Nat) (steps : List (Nat × Bool)) : Option Bool :=
  ((steps.filter (fun e => e.1 == bit)).getLast?).map (fun e => e.2)

/-- The error-code masks an entry point may OR into `I2C_ErrorCode`. -/
def ownedMasks : Op → List Nat
  | Op.start _ => [1 <<< I2C_START, 1 <<< I2C_SENDADRESS]
  | Op.tx_address _ => [1 <<< I2C_START, 1 <<< I2C_SENDADRESS]
  | Op.byte _ => [1 <<< I2C_BYTE]
  | Op.tx_byte _ => [1 <<< I2C_BYTE]
  | Op.readAck => [1 <<< I2C_READACK]
  | Op.readNAck => [1 <<< I2C_READNACK]
  | _ => []

/-! ## Controllers used as concrete inputs -/

/-- A controller that never raises the completion flag. -/
def hwSilent : Controller := fun _ _ => 0

/-- A controller that shows the completion flag on every read of any register
(so its data register reads 0x80). -/
def hwReady : Controller := fun _ _ => 128

/-- A controller whose completion flag is always up and whose data register
holds 0x5A. -/
def hwData : Controller := fun _ r => if r = Reg.TWDR then 0x5A else 128

/-- From an empty log: the START handshake completes on its 80th poll, the
address handshake would complete on its second poll. -/
def hwLateStart : Controller :=
  fun h _ => if h.length = 80 ∨ 84 ≤ h.length then 128 else 0

/-- From an empty log: silent for the first 82 accesses, ready afterwards. -/
def hwWakes : Controller :=
  fun h _ => if h.length < 82 then 0 else 128

/-- A configuration that passes the build-time check: 16 MHz CPU, 50 kHz bus,
prescale 1. -/
def slowBus : Config := ⟨16000000, 50000, 1⟩

/-! ## Contracts used in the statements -/

/-- The 80-poll contract of one polled call that starts in state `s`, has log
`h0` when its poll loop begins, owns error bit `bit` and ends in state `s1`:
* it reads the completion flag at most 80 times;
* it leaves through the timeout branch exactly when the flag read clear on
  each of the first 80 polls, and then it polled 80 times and OR-ed its bit in;
* if the flag is first seen set on poll `n + 1`, `n < 80`, it polled exactly
  `n + 1` times, did not time out and left the error code unchanged. -/
def BudgetContract (hw : Controller) (bit : Nat) (h0 : List Access) (s s1 : State) : Prop :=
  pollsOf s1.log ≤ pollsOf s.log + 80 ∧
  (s1.steps = s.steps ++ [(bit, true)] ↔
    ∀ k, k < 80 → flagClear (pollValue hw h0 k) = true) ∧
  ((∀ k, k < 80 → flagClear (pollValue hw h0 k) = true) →
    s1.I2C_ErrorCode = s.I2C_ErrorCode ||| (1 <<< bit) ∧
      pollsOf s1.log = pollsOf s.log + 80) ∧
  (∀ n, n < 80 → (∀ k, k < n → flagClear (pollValue hw h0 k) = true) →
    flagClear (pollValue hw h0 n) = false →
    s1.steps = s.steps ++ [(bit, false)] ∧
      s1.I2C_ErrorCode = s.I2C_ErrorCode ∧
      pollsOf s1.log = pollsOf s.log + (n + 1))

/-- The error code stays a byte and has bit `N` set exactly when the record
holds a timed-out execution of step `N`. -/
def Tracks (s : State) : Prop :=
  s.I2C_ErrorCode < 256 ∧
    ∀ N : Nat, s.I2C_ErrorCode.testBit N = true ↔ (N, true) ∈ s.steps

/-! ## Lemmas on logs -/

theorem writesOf_append (l₁ l₂ : List Access) :
    writesOf (l₁ ++ l₂) = writesOf l₁ ++ writesOf l₂ := by
  induction l₁ with
  | nil => rfl
  | cons a l ih =>
    cases a with
    | write r v => simp [writesOf, ih]
    | read r v => simp [writesOf, ih]

theorem pollsOf_append (l₁ l₂ : List Access) :
    pollsOf (l₁ ++ l₂) = pollsOf l₁ + pollsOf l₂ := by
  simp [pollsOf, List.filter_append]

theorem afterPolls_eq_append (hw : Controller) :
    ∀ (n : Nat) (h : List Access),
      ∃ ps : List Access, afterPolls hw n h = h ++ ps ∧ ps.length = n ∧
        writesOf ps = [] ∧ pollsOf ps = n := by
  intro n
  induction n with
  | zero => intro h; exact ⟨[], by simp [afterPolls], rfl, rfl, rfl⟩
  | succ n ih =>
    intro h
    obtain ⟨ps, h1, h2, h3, h4⟩ := ih (h ++ [Access.read Reg.TWCR (hw h Reg.TWCR % 256)])
    refine ⟨Access.read Reg.TWCR (hw h Reg.TWCR % 256) :: ps, ?_, ?_, ?_, ?_⟩
    · simp [afterPolls, h1]
    · simp [h2]
    · simp [writesOf, h3]
    · have : pollsOf (Access.read Reg.TWCR (hw h Reg.TWCR % 256) :: ps) = pollsOf ps + 1 := by
        simp [pollsOf, isPoll]
      omega

theorem writesOf_afterPolls (hw : Controller) (n : Nat) (h : List Access) :
    writesOf (afterPolls hw n h) = writesOf h := by
  obtain ⟨ps, h1, _, h3, _⟩ := afterPolls_eq_append hw n h
  rw [h1, writesOf_append, h3, List.append_nil]

theorem pollsOf_afterPolls (hw : Controller) (n : Nat) (h : List Access) :
    pollsOf (afterPolls hw n h) = pollsOf h + n := by
  obtain ⟨ps, h1, _, _, h4⟩ := afterPolls_eq_append hw n h
  rw [h1, pollsOf_append, h4]

/-! ## The poll loop, characterised -/

/-- With the flag clear on the first `t + 1` polls, a loop started at
`timeout = t + 1` makes exactly those polls and takes the timeout branch. -/
theorem pollLoop_all_clear (hw : Controller) (bit : Nat) :
    ∀ (t : Nat) (s : State),
      (∀ k, k < t + 1 → flagClear (pollValue hw s.log k) = true) →
      pollLoop hw bit (t + 1) s =
        ⟨⟨(s.I2C_ErrorCode ||| (1 <<< bit)) % 256, afterPolls hw (t + 1) s.log,
           s.steps ++ [(bit, true)]⟩, 0, true⟩ := by
  intro t
  induction t with
  | zero =>
    intro s h
    have h0 : flagClear (hw s.log Reg.TWCR % 256) = true := h 0 (by omega)
    simp [pollLoop, readReg, h0, afterPolls]
  | succ t ih =>
    intro s h
    have h0 : flagClear (hw s.log Reg.TWCR % 256) = true := h 0 (by omega)
    have hrec := ih (readReg hw Reg.TWCR s).2 (fun k hk => h (k + 1) (by omega))
    rw [pollLoop]
    simp only [readReg, h0, if_true] at hrec ⊢
    simp only [Nat.add_one_ne_zero, beq_iff_eq, if_false]
    rw [hrec]
    rfl

/-- With the flag first seen set on poll `n + 1`, within the counter, the loop
makes exactly `n + 1` polls, leaves the error code alone and leaves the counter
at its start value minus `n`. -/
theorem pollLoop_first_set (hw : Controller) (bit : Nat) :
    ∀ (n t : Nat) (s : State), n ≤ t →
      (∀ k, k < n → flagClear (pollValue hw s.log k) = true) →
      flagClear (pollValue hw s.log n) = false →
      pollLoop hw bit (t + 1) s =
        ⟨⟨s.I2C_ErrorCode, afterPolls hw (n + 1) s.log, s.steps ++ [(bit, false)]⟩,
          t + 1 - n, false⟩ := by
  intro n
  induction n with
  | zero =>
    intro t s _ _ hset
    have h0 : flagClear (hw s.log Reg.TWCR % 256) = false := hset
    simp [pollLoop, readReg, h0, afterPolls]
  | succ n ih =>
    intro t s hle hclear hset
    obtain ⟨t, rfl⟩ : ∃ t', t = t' + 1 := ⟨t - 1, by omega⟩
    have h0 : flagClear (hw s.log Reg.TWCR % 256) = true := hclear 0 (by omega)
    have hrec := ih t (readReg hw Reg.TWCR s).2 (by omega)
      (fun k hk => hclear (k + 1) (by omega)) hset
    rw [pollLoop]
    simp only [readReg, h0, if_true] at hrec ⊢
    simp only [Nat.add_one_ne_zero, beq_iff_eq, if_false]
    rw [hrec]
    simp [afterPolls]

/-- The timeout case for a counter given as a positive number. -/
theorem pollLoop_timeout (hw : Controller) (bit T : Nat) (s : State) (hT : 0 < T)
    (h : ∀ k, k < T → flagClear (pollValue hw s.log k) = true) :
    pollLoop hw bit T s =
      ⟨⟨(s.I2C_ErrorCode ||| (1 <<< bit)) % 256, afterPolls hw T s.log,
         s.steps ++ [(bit, true)]⟩, 0, true⟩ := by
  obtain ⟨t, rfl⟩ : ∃ t, T = t + 1 := ⟨T - 1, by omega⟩
  exact pollLoop_all_clear hw bit t s h

/-- The completion case for a counter given as a number above the index of the
first poll that sees the flag. -/
theorem pollLoop_done (hw : Controller) (bit n T : Nat) (s : State) (hn : n < T)
    (hclear : ∀ k, k < n → flagClear (pollValue hw s.log k) = true)
    (hset : flagClear (pollValue hw s.log n) = false) :
    pollLoop hw bit T s =
      ⟨⟨s.I2C_ErrorCode, afterPolls hw (n + 1) s.log, s.steps ++ [(bit, false)]⟩,
        T - n, false⟩ := by
  obtain ⟨t, rfl⟩ : ∃ t, T = t + 1 := ⟨T - 1, by omega⟩
  exact pollLoop_first_set hw bit n t s (by omega) hclear hset

/-- Either the flag is clear on all of the first `N` polls, or there is a first
poll among them that sees it set. -/
theorem clear_or_first_set (hw : Controller) (h : List Access) :
    ∀ N : Nat, (∀ k, k < N → flagClear (pollValue hw h k) = true) ∨
      ∃ n, n < N ∧ (∀ k, k < n → flagClear (pollValue hw h k) = true) ∧
        flagClear (pollValue hw h n) = false := by
  intro N
  induction N with
  | zero => left; intro k hk; omega
  | succ N ih =>
    rcases ih with hall | ⟨n, hn, hc, hs⟩
    · cases hN : flagClear (pollValue hw h N) with
      | true =>
        left
        intro k hk
        rcases Nat.lt_succ_iff_lt_or_eq.mp hk with hlt | heq
        · exact hall k hlt
        · rw [heq]; exact hN
      | false => right; exact ⟨N, by omega, hall, hN⟩
    · right; exact ⟨n, by omega, hc, hs⟩

theorem lor_mask_mod (e b : Nat) (he : e < 256) (hb : b < 8) :
    (e ||| (1 <<< b)) % 256 = e ||| (1 <<< b) := by
  apply Nat.mod_eq_of_lt
  have h1 : (1 <<< b) < 2 ^ 8 := by
    rw [Nat.one_shiftLeft]
    exact Nat.pow_lt_pow_right (by omega) hb
  exact @Nat.or_lt_two_pow e (1 <<< b) 8 he h1

theorem testBit_lor_mask (e b i : Nat) :
    (e ||| (1 <<< b)).testBit i = (e.testBit i || decide (b = i)) := by
  rw [Nat.testBit_lor, Nat.one_shiftLeft, Nat.testBit_two_pow]

theorem pollsOf_nil : pollsOf [] = 0 := rfl

theorem pollsOf_cons_write (r : Reg) (v : Nat) (l : List Access) :
    pollsOf (Access.write r v :: l) = pollsOf l := by
  simp [pollsOf, isPoll]

theorem pollsOf_cons_poll (v : Nat) (l : List Access) :
    pollsOf (Access.read Reg.TWCR v :: l) = pollsOf l + 1 := by
  simp [pollsOf, isPoll]

theorem pollsOf_cons_data (v : Nat) (l : List Access) :
    pollsOf (Access.read Reg.TWDR v :: l) = pollsOf l := by
  simp [pollsOf, isPoll]

theorem writesOf_cons_write (r : Reg) (v : Nat) (l : List Access) :
    writesOf (Access.write r v :: l) = (r, v) :: writesOf l := rfl

theorem writesOf_cons_read (r : Reg) (v : Nat) (l : List Access) :
    writesOf (Access.read r v :: l) = writesOf l := rfl

theorem writesOf_nil : writesOf [] = [] := rfl

/-- What any poll loop does, whatever the counter and the controller: it polls
at least once, records its outcome, and changes the error code only by OR-ing
its own bit in, which it does exactly when it returns from the timeout branch. -/
theorem pollLoop_effect (hw : Controller) (bit : Nat) :
    ∀ (t : Nat) (s : State),
      (pollLoop hw bit t s).st.steps = s.steps ++ [(bit, (pollLoop hw bit t s).returned)] ∧
      (pollLoop hw bit t s).st.I2C_ErrorCode =
        (if (pollLoop hw bit t s).returned then (s.I2C_ErrorCode ||| (1 <<< bit)) % 256
         else s.I2C_ErrorCode) ∧
      ∃ n, 1 ≤ n ∧ n ≤ max t 1 ∧ (pollLoop hw bit t s).st.log = afterPolls hw n s.log := by
  intro t
  induction t with
  | zero =>
    intro s
    refine ⟨by simp [pollLoop, readReg], by simp [pollLoop, readReg], 1, by omega, by simp, ?_⟩
    simp [pollLoop, readReg, afterPolls]
  | succ t ih =>
    intro s
    cases h0 : flagClear (hw s.log Reg.TWCR % 256) with
    | false =>
      refine ⟨by simp [pollLoop, readReg, h0], by simp [pollLoop, readReg, h0],
        1, by omega, by simp, ?_⟩
      simp [pollLoop, readReg, h0, afterPolls]
    | true =>
      cases t with
      | zero =>
        refine ⟨by simp [pollLoop, readReg, h0], by simp [pollLoop, readReg, h0],
          1, by omega, by simp, ?_⟩
        simp [pollLoop, readReg, h0, afterPolls]
      | succ t =>
        have hstep : pollLoop hw bit (t + 1 + 1) s =
            pollLoop hw bit (t + 1) (readReg hw Reg.TWCR s).2 := by
          rw [pollLoop]
          simp [readReg, h0]
        obtain ⟨h1, h2, n, hn1, hn2, hn3⟩ := ih (readReg hw Reg.TWCR s).2
        rw [hstep]
        refine ⟨h1, h2, n + 1, by omega, ?_, ?_⟩
        · have : max (t + 1) 1 = t + 1 := by omega
          have : max (t + 1 + 1) 1 = t + 2 := by omega
          omega
        · rw [hn3]; rfl

theorem timeoutInit_shipped : timeoutInit shipped = 80 := by decide

@[simp] theorem writeReg_err (r : Reg) (v : Nat) (s : State) :
    (writeReg r v s).I2C_ErrorCode = s.I2C_ErrorCode := rfl

@[simp] theorem writeReg_steps (r : Reg) (v : Nat) (s : State) :
    (writeReg r v s).steps = s.steps := rfl

@[simp] theorem writeReg_log (r : Reg) (v : Nat) (s : State) :
    (writeReg r v s).log = s.log ++ [Access.write r (v % 256)] := rfl

theorem startPattern_mod :
    ((1 <<< TWINT) ||| (1 <<< TWSTA) ||| (1 <<< TWEN)) % 256 =
      (1 <<< TWINT) ||| (1 <<< TWSTA) ||| (1 <<< TWEN) := by decide

theorem stopPattern_mod :
    ((1 <<< TWINT) ||| (1 <<< TWSTO) ||| (1 <<< TWEN)) % 256 =
      (1 <<< TWINT) ||| (1 <<< TWSTO) ||| (1 <<< TWEN) := by decide

theorem goPattern_mod :
    ((1 <<< TWINT) ||| (1 <<< TWEN)) % 256 = (1 <<< TWINT) ||| (1 <<< TWEN) := by decide

theorem ackPattern_mod :
    ((1 <<< TWINT) ||| (1 <<< TWEN) ||| (1 <<< TWEA)) % 256 =
      (1 <<< TWINT) ||| (1 <<< TWEN) ||| (1 <<< TWEA) := by decide

/-! ## The entry points in closed form -/

/-- `i2c_start`, START phase timing out. -/
theorem i2c_start_timeout (hw : Controller) (addr : Nat) (s : State)
    (he : s.I2C_ErrorCode < 256)
    (hclear : ∀ k, k < 80 → flagClear (pollValue hw
      (writeReg Reg.TWCR ((1 <<< TWINT) ||| (1 <<< TWSTA) ||| (1 <<< TWEN)) s).log k) = true) :
    i2c_start hw shipped addr s =
      ⟨s.I2C_ErrorCode ||| (1 <<< I2C_START),
        afterPolls hw 80
          (writeReg Reg.TWCR ((1 <<< TWINT) ||| (1 <<< TWSTA) ||| (1 <<< TWEN)) s).log,
        s.steps ++ [(I2C_START, true)]⟩ := by
  unfold i2c_start
  simp only [timeoutInit_shipped]
  rw [pollLoop_timeout hw I2C_START 80 _ (by omega) hclear]
  simp only [if_true, writeReg_err, writeReg_steps]
  rw [lor_mask_mod _ _ he (by decide)]

/-- `i2c_start`, START phase completing on poll `n + 1`: the address phase is
the poll loop started with what is left of the one counter, `80 - n`. -/
theorem i2c_start_address_phase (hw : Controller) (addr : Nat) (s : State) (n : Nat)
    (hn : n < 80)
    (hclear : ∀ k, k < n → flagClear (pollValue hw
      (writeReg Reg.TWCR ((1 <<< TWINT) ||| (1 <<< TWSTA) ||| (1 <<< TWEN)) s).log k) = true)
    (hset : flagClear (pollValue hw
      (writeReg Reg.TWCR ((1 <<< TWINT) ||| (1 <<< TWSTA) ||| (1 <<< TWEN)) s).log n) = false) :
    i2c_start hw shipped addr s =
      (pollLoop hw I2C_SENDADRESS (80 - n)
        (writeReg Reg.TWCR ((1 <<< TWINT) ||| (1 <<< TWEN))
          (writeReg Reg.TWDR (addr % 256)
            ⟨s.I2C_ErrorCode,
              afterPolls hw (n + 1)
                (writeReg Reg.TWCR ((1 <<< TWINT) ||| (1 <<< TWSTA) ||| (1 <<< TWEN)) s).log,
              s.steps ++ [(I2C_START, false)]⟩))).st := by
  unfold i2c_start
  simp only [timeoutInit_shipped]
  rw [pollLoop_done hw I2C_START n 80 _ hn hclear hset]
  simp only [Bool.false_eq_true, if_false, writeReg_err, writeReg_steps]

/-- `i2c_byte`, timing out. -/
theorem i2c_byte_timeout (hw : Controller) (d : Nat) (s : State)
    (he : s.I2C_ErrorCode < 256)
    (hclear : ∀ k, k < 80 → flagClear (pollValue hw
      (writeReg Reg.TWCR ((1 <<< TWINT) ||| (1 <<< TWEN))
        (writeReg Reg.TWDR (d % 256) s)).log k) = true) :
    i2c_byte hw shipped d s =
      ⟨s.I2C_ErrorCode ||| (1 <<< I2C_BYTE),
        afterPolls hw 80
          (writeReg Reg.TWCR ((1 <<< TWINT) ||| (1 <<< TWEN))
            (writeReg Reg.TWDR (d % 256) s)).log,
        s.steps ++ [(I2C_BYTE, true)]⟩ := by
  unfold i2c_byte
  simp only [timeoutInit_shipped]
  rw [pollLoop_timeout hw I2C_BYTE 80 _ (by omega) hclear]
  simp only [writeReg_err, writeReg_steps]
  rw [lor_mask_mod _ _ he (by decide)]

/-- `i2c_byte`, completing on poll `n + 1`. -/
theorem i2c_byte_done (hw : Controller) (d : Nat) (s : State) (n : Nat) (hn : n < 80)
    (hclear : ∀ k, k < n → flagClear (pollValue hw
      (writeReg Reg.TWCR ((1 <<< TWINT) ||| (1 <<< TWEN))
        (writeReg Reg.TWDR (d % 256) s)).log k) = true)
    (hset : flagClear (pollValue hw
      (writeReg Reg.TWCR ((1 <<< TWINT) ||| (1 <<< TWEN))
        (writeReg Reg.TWDR (d % 256) s)).log n) = false) :
    i2c_byte hw shipped d s =
      ⟨s.I2C_ErrorCode,
        afterPolls hw (n + 1)
          (writeReg Reg.TWCR ((1 <<< TWINT) ||| (1 <<< TWEN))
            (writeReg Reg.TWDR (d % 256) s)).log,
        s.steps ++ [(I2C_BYTE, false)]⟩ := by
  unfold i2c_byte
  simp only [timeoutInit_shipped]
  rw [pollLoop_done hw I2C_BYTE n 80 _ hn hclear hset]
  simp only [writeReg_err, writeReg_steps]

/-- `i2c_readAck`, timing out. -/
theorem i2c_readAck_timeout (hw : Controller) (s : State)
    (he : s.I2C_ErrorCode < 256)
    (hclear : ∀ k, k < 80 → flagClear (pollValue hw
      (writeReg Reg.TWCR ((1 <<< TWINT) ||| (1 <<< TWEN) ||| (1 <<< TWEA)) s).log k) = true) :
    i2c_readAck hw shipped s =
      (0, ⟨s.I2C_ErrorCode ||| (1 <<< I2C_READACK),
        afterPolls hw 80
          (writeReg Reg.TWCR ((1 <<< TWINT) ||| (1 <<< TWEN) ||| (1 <<< TWEA)) s).log,
        s.steps ++ [(I2C_READACK, true)]⟩) := by
  unfold i2c_readAck
  simp only [timeoutInit_shipped]
  rw [pollLoop_timeout hw I2C_READACK 80 _ (by omega) hclear]
  simp only [if_true, writeReg_err, writeReg_steps]
  rw [lor_mask_mod _ _ he (by decide)]

/-- `i2c_readAck`, completing on poll `n + 1`: the data register is read next. -/
theorem i2c_readAck_done (hw : Controller) (s : State) (n : Nat) (hn : n < 80)
    (hclear : ∀ k, k < n → flagClear (pollValue hw
      (writeReg Reg.TWCR ((1 <<< TWINT) ||| (1 <<< TWEN) ||| (1 <<< TWEA)) s).log k) = true)
    (hset : flagClear (pollValue hw
      (writeReg Reg.TWCR ((1 <<< TWINT) ||| (1 <<< TWEN) ||| (1 <<< TWEA)) s).log n) = false) :
    i2c_readAck hw shipped s =
      readReg hw Reg.TWDR
        ⟨s.I2C_ErrorCode,
          afterPolls hw (n + 1)
            (writeReg Reg.TWCR ((1 <<< TWINT) ||| (1 <<< TWEN) ||| (1 <<< TWEA)) s).log,
          s.steps ++ [(I2C_READACK, false)]⟩ := by
  unfold i2c_readAck
  simp only [timeoutInit_shipped]
  rw [pollLoop_done hw I2C_READACK n 80 _ hn hclear hset]
  simp only [Bool.false_eq_true, if_false, writeReg_err, writeReg_steps]

/-- `i2c_readNAck`, timing out. -/
theorem i2c_readNAck_timeout (hw : Controller) (s : State)
    (he : s.I2C_ErrorCode < 256)
    (hclear : ∀ k, k < 80 → flagClear (pollValue hw
      (writeReg Reg.TWCR ((1 <<< TWINT) ||| (1 <<< TWEN)) s).log k) = true) :
    i2c_readNAck hw shipped s =
      (0, ⟨s.I2C_ErrorCode ||| (1 <<< I2C_READNACK),
        afterPolls hw 80 (writeReg Reg.TWCR ((1 <<< TWINT) ||| (1 <<< TWEN)) s).log,
        s.steps ++ [(I2C_READNACK, true)]⟩) := by
  unfold i2c_readNAck
  simp only [timeoutInit_shipped]
  rw [pollLoop_timeout hw I2C_READNACK 80 _ (by omega) hclear]
  simp only [if_true, writeReg_err, writeReg_steps]
  rw [lor_mask_mod _ _ he (by decide)]

/-- `i2c_readNAck`, completing on poll `n + 1`: the data register is read next. -/
theorem i2c_readNAck_done (hw : Controller) (s : State) (n : Nat) (hn : n < 80)
    (hclear : ∀ k, k < n → flagClear (pollValue hw
      (writeReg Reg.TWCR ((1 <<< TWINT) ||| (1 <<< TWEN)) s).log k) = true)
    (hset : flagClear (pollValue hw
      (writeReg Reg.TWCR ((1 <<< TWINT) ||| (1 <<< TWEN)) s).log n) = false) :
    i2c_readNAck hw shipped s =
      readReg hw Reg.TWDR
        ⟨s.I2C_ErrorCode,
          afterPolls hw (n + 1) (writeReg Reg.TWCR ((1 <<< TWINT) ||| (1 <<< TWEN)) s).log,
          s.steps ++ [(I2C_READNACK, false)]⟩ := by
  unfold i2c_readNAck
  simp only [timeoutInit_shipped]
  rw [pollLoop_done hw I2C_READNACK n 80 _ hn hclear hset]
  simp only [Bool.false_eq_true, if_false, writeReg_err, writeReg_steps]

/-! ## Claims -/

/-- Claim C1. `i2c_start` against a controller whose completion flag reads clear
on every poll: the only register write is the start pattern
`TWINT|TWSTA|TWEN` to the control register, followed by 80 polls; the
start-timeout bit is OR-ed into the error code and the function returns, so
the data register is never written, no second control write happens, and the
address-timeout bit keeps its value. -/
theorem C1_start_timeout_skips_address (hw : Controller) (addr : Nat) (s : State)
    (hsilent : ∀ h, flagClear (hw h Reg.TWCR % 256) = true)
    (he : s.I2C_ErrorCode < 256) :
    (i2c_start hw shipped addr s).log =
        afterPolls hw 80
          (s.log ++ [Access.write Reg.TWCR ((1 <<< TWINT) ||| (1 <<< TWSTA) ||| (1 <<< TWEN))]) ∧
      writesOf (i2c_start hw shipped addr s).log =
        writesOf s.log ++ [(Reg.TWCR, (1 <<< TWINT) ||| (1 <<< TWSTA) ||| (1 <<< TWEN))] ∧
      pollsOf (i2c_start hw shipped addr s).log = pollsOf s.log + 80 ∧
      (i2c_start hw shipped addr s).I2C_ErrorCode = s.I2C_ErrorCode ||| (1 <<< I2C_START) ∧
      (i2c_start hw shipped addr s).I2C_ErrorCode.testBit I2C_SENDADRESS =
        s.I2C_ErrorCode.testBit I2C_SENDADRESS := by
  rw [i2c_start_timeout hw addr s he (fun k _ => hsilent _)]
  refine ⟨?_, ?_, ?_, rfl, ?_⟩
  · simp only [writeReg_log, startPattern_mod]
  · simp only [writeReg_log, writeReg_err, readReg, startPattern_mod, goPattern_mod, ackPattern_mod,
      writesOf_afterPolls, writesOf_append, writesOf_cons_write, writesOf_cons_read,
      writesOf_nil, List.append_assoc, List.cons_append, List.nil_append]
  · simp only [writeReg_log, writeReg_err, readReg, pollsOf_afterPolls, pollsOf_append,
      pollsOf_cons_write, pollsOf_cons_poll, pollsOf_cons_data, pollsOf_nil]
  · rw [testBit_lor_mask]
    simp [I2C_START, I2C_SENDADRESS]

/-- Concrete instance: the silent controller, address 0xA0, from program start. -/
theorem C1_start_timeout_skips_address_witness :
    (i2c_start hwSilent shipped 0xA0 State.initial).I2C_ErrorCode = 1 ∧
      writesOf (i2c_start hwSilent shipped 0xA0 State.initial).log = [(Reg.TWCR, 0xA4)] ∧
      pollsOf (i2c_start hwSilent shipped 0xA0 State.initial).log = 80 := by
  have h := C1_start_timeout_skips_address hwSilent 0xA0 State.initial
    (fun _ => by simp [hwSilent, flagClear]) (by decide)
  exact ⟨h.2.2.2.1, h.2.1, h.2.2.1⟩

/-- Claim C2. `i2c_start` against a controller whose completion flag reads set on
every poll: the register writes are, in order, control := `TWINT|TWSTA|TWEN`,
data := `addr`, control := `TWINT|TWEN`, with one poll after each control
write, and the error code is left exactly as it was. -/
theorem C2_start_ready_trace (hw : Controller) (addr : Nat) (s : State)
    (hready : ∀ h, flagClear (hw h Reg.TWCR % 256) = false)
    (haddr : addr < 256) :
    (i2c_start hw shipped addr s).log =
        afterPolls hw 1
          (afterPolls hw 1
              (s.log ++ [Access.write Reg.TWCR ((1 <<< TWINT) ||| (1 <<< TWSTA) ||| (1 <<< TWEN))])
            ++ [Access.write Reg.TWDR addr,
                Access.write Reg.TWCR ((1 <<< TWINT) ||| (1 <<< TWEN))]) ∧
      writesOf (i2c_start hw shipped addr s).log =
        writesOf s.log ++
          [(Reg.TWCR, (1 <<< TWINT) ||| (1 <<< TWSTA) ||| (1 <<< TWEN)),
           (Reg.TWDR, addr),
           (Reg.TWCR, (1 <<< TWINT) ||| (1 <<< TWEN))] ∧
      pollsOf (i2c_start hw shipped addr s).log = pollsOf s.log + 2 ∧
      (i2c_start hw shipped addr s).I2C_ErrorCode = s.I2C_ErrorCode := by
  rw [i2c_start_address_phase hw addr s 0 (by omega)
    (fun k hk => absurd hk (Nat.not_lt_zero k)) (hready _)]
  rw [pollLoop_done hw I2C_SENDADRESS 0 (80 - 0) _ (by omega)
    (fun k hk => absurd hk (Nat.not_lt_zero k)) (hready _)]
  simp only [Nat.mod_mod, Nat.mod_eq_of_lt haddr]
  refine ⟨?_, ?_, ?_, rfl⟩
  · simp only [writeReg_log, startPattern_mod, goPattern_mod, Nat.mod_eq_of_lt haddr,
      List.append_assoc, List.cons_append, List.nil_append]
  · simp only [writeReg_log, writeReg_err, readReg, startPattern_mod, goPattern_mod, ackPattern_mod,
      writesOf_afterPolls, writesOf_append, writesOf_cons_write, writesOf_cons_read,
      writesOf_nil, List.append_assoc, List.cons_append, List.nil_append, Nat.mod_mod,
      Nat.mod_eq_of_lt haddr]
  · simp only [writeReg_log, writeReg_err, readReg, pollsOf_afterPolls, pollsOf_append,
      pollsOf_cons_write, pollsOf_cons_poll, pollsOf_cons_data, pollsOf_nil]

/-- Concrete instance: the always-ready controller, address 0xA0, from program start. -/
theorem C2_start_ready_trace_witness :
    (i2c_start hwReady shipped 0xA0 State.initial).I2C_ErrorCode = 0 ∧
      writesOf (i2c_start hwReady shipped 0xA0 State.initial).log =
        [(Reg.TWCR, 0xA4), (Reg.TWDR, 0xA0), (Reg.TWCR, 0x84)] := by
  have h := C2_start_ready_trace hwReady 0xA0 State.initial
    (fun _ => by simp [hwReady, flagClear, TWINT]) (by decide)
  exact ⟨h.2.2.2, h.2.1⟩

/-- Claim C3. Against a controller that raises the completion flag within the
80-poll budget (first seen on poll `nA + 1`, resp. `nN + 1`), `i2c_readAck`
and `i2c_readNAck` return the byte the data register presents right after
the poll that saw the flag, leave the error code unchanged, and write one
register only: control := `TWINT|TWEN|TWEA`, resp. control := `TWINT|TWEN`.
The two trigger values differ in bit `TWEA` and nowhere else. -/
theorem C3_reads_return_data (hw : Controller) (s : State) (nA nN : Nat)
    (hnA : nA < 80)
    (hAclear : ∀ k, k < nA → flagClear (pollValue hw
      (s.log ++ [Access.write Reg.TWCR ((1 <<< TWINT) ||| (1 <<< TWEN) ||| (1 <<< TWEA))]) k)
        = true)
    (hAset : flagClear (pollValue hw
      (s.log ++ [Access.write Reg.TWCR ((1 <<< TWINT) ||| (1 <<< TWEN) ||| (1 <<< TWEA))]) nA)
        = false)
    (hnN : nN < 80)
    (hNclear : ∀ k, k < nN → flagClear (pollValue hw
      (s.log ++ [Access.write Reg.TWCR ((1 <<< TWINT) ||| (1 <<< TWEN))]) k) = true)
    (hNset : flagClear (pollValue hw
      (s.log ++ [Access.write Reg.TWCR ((1 <<< TWINT) ||| (1 <<< TWEN))]) nN) = false) :
    ((i2c_readAck hw shipped s).1 =
        hw (afterPolls hw (nA + 1)
          (s.log ++ [Access.write Reg.TWCR ((1 <<< TWINT) ||| (1 <<< TWEN) ||| (1 <<< TWEA))]))
          Reg.TWDR % 256 ∧
      (i2c_readAck hw shipped s).2.I2C_ErrorCode = s.I2C_ErrorCode ∧
      writesOf (i2c_readAck hw shipped s).2.log =
        writesOf s.log ++ [(Reg.TWCR, (1 <<< TWINT) ||| (1 <<< TWEN) ||| (1 <<< TWEA))] ∧
      pollsOf (i2c_readAck hw shipped s).2.log = pollsOf s.log + (nA + 1)) ∧
    ((i2c_readNAck hw shipped s).1 =
        hw (afterPolls hw (nN + 1)
          (s.log ++ [Access.write Reg.TWCR ((1 <<< TWINT) ||| (1 <<< TWEN))])) Reg.TWDR % 256 ∧
      (i2c_readNAck hw shipped s).2.I2C_ErrorCode = s.I2C_ErrorCode ∧
      writesOf (i2c_readNAck hw shipped s).2.log =
        writesOf s.log ++ [(Reg.TWCR, (1 <<< TWINT) ||| (1 <<< TWEN))] ∧
      pollsOf (i2c_readNAck hw shipped s).2.log = pollsOf s.log + (nN + 1)) ∧
    ((1 <<< TWINT) ||| (1 <<< TWEN) ||| (1 <<< TWEA)) ^^^ ((1 <<< TWINT) ||| (1 <<< TWEN))
      = 1 <<< TWEA := by
  have hA := i2c_readAck_done hw s nA hnA
    (by simpa only [writeReg_log, ackPattern_mod] using hAclear)
    (by simpa only [writeReg_log, ackPattern_mod] using hAset)
  have hN := i2c_readNAck_done hw s nN hnN
    (by simpa only [writeReg_log, goPattern_mod] using hNclear)
    (by simpa only [writeReg_log, goPattern_mod] using hNset)
  rw [hA, hN]
  refine ⟨⟨?_, rfl, ?_, ?_⟩, ⟨?_, rfl, ?_, ?_⟩, by decide⟩
  · simp only [readReg, writeReg_log, ackPattern_mod]
  · simp only [writeReg_log, writeReg_err, readReg, startPattern_mod, goPattern_mod, ackPattern_mod,
      writesOf_afterPolls, writesOf_append, writesOf_cons_write, writesOf_cons_read,
      writesOf_nil, List.append_assoc, List.cons_append, List.nil_append]
  · simp only [writeReg_log, writeReg_err, readReg, pollsOf_afterPolls, pollsOf_append,
      pollsOf_cons_write, pollsOf_cons_poll, pollsOf_cons_data, pollsOf_nil]
    omega
  · simp only [readReg, writeReg_log, goPattern_mod]
  · simp only [writeReg_log, writeReg_err, readReg, startPattern_mod, goPattern_mod, ackPattern_mod,
      writesOf_afterPolls, writesOf_append, writesOf_cons_write, writesOf_cons_read,
      writesOf_nil, List.append_assoc, List.cons_append, List.nil_append]
  · simp only [writeReg_log, writeReg_err, readReg, pollsOf_afterPolls, pollsOf_append,
      pollsOf_cons_write, pollsOf_cons_poll, pollsOf_cons_data, pollsOf_nil]
    omega

/-- Concrete instance: a ready controller whose data register holds 0x5A. -/
theorem C3_reads_return_data_witness :
    (i2c_readAck hwData shipped State.initial).1 = 0x5A ∧
      (i2c_readAck hwData shipped State.initial).2.I2C_ErrorCode = 0 ∧
      (i2c_readNAck hwData shipped State.initial).1 = 0x5A ∧
      (i2c_readNAck hwData shipped State.initial).2.I2C_ErrorCode = 0 := by
  have h := C3_reads_return_data hwData State.initial 0 0 (by decide)
    (fun k hk => absurd hk (Nat.not_lt_zero k)) (by decide) (by decide)
    (fun k hk => absurd hk (Nat.not_lt_zero k)) (by decide)
  exact ⟨h.1.1, h.1.2.1, h.2.1.1, h.2.1.2.1⟩

/-- Claim C4. Against a controller whose completion flag reads clear on every
poll, for every prior error code `e`: `i2c_byte d` writes `d` to the data
register, triggers, polls 80 times and ends with `e | 0x04`; `i2c_readAck`
returns 0 and ends with `e | 0x08`; `i2c_readNAck` returns 0 and ends with
`e | 0x10`. The reads never touch the data register (their log is the trigger
and 80 polls), so the 0 does not depend on its content; and a ready controller
whose data register holds 0 makes both reads return the same 0 with the error
code unchanged, so only the timeout bit tells the two results apart. -/
theorem C4_silent_controller_timeouts (hw : Controller) (d : Nat) (s : State)
    (hsilent : ∀ h, flagClear (hw h Reg.TWCR % 256) = true)
    (he : s.I2C_ErrorCode < 256) (hd : d < 256) :
    (writesOf (i2c_byte hw shipped d s).log =
        writesOf s.log ++ [(Reg.TWDR, d), (Reg.TWCR, (1 <<< TWINT) ||| (1 <<< TWEN))] ∧
      pollsOf (i2c_byte hw shipped d s).log = pollsOf s.log + 80 ∧
      (i2c_byte hw shipped d s).I2C_ErrorCode = s.I2C_ErrorCode ||| 0x04) ∧
    ((i2c_readAck hw shipped s).1 = 0 ∧
      (i2c_readAck hw shipped s).2.log =
        afterPolls hw 80
          (s.log ++ [Access.write Reg.TWCR ((1 <<< TWINT) ||| (1 <<< TWEN) ||| (1 <<< TWEA))]) ∧
      (i2c_readAck hw shipped s).2.I2C_ErrorCode = s.I2C_ErrorCode ||| 0x08) ∧
    ((i2c_readNAck hw shipped s).1 = 0 ∧
      (i2c_readNAck hw shipped s).2.log =
        afterPolls hw 80 (s.log ++ [Access.write Reg.TWCR ((1 <<< TWINT) ||| (1 <<< TWEN))]) ∧
      (i2c_readNAck hw shipped s).2.I2C_ErrorCode = s.I2C_ErrorCode ||| 0x10) ∧
    (∀ hw0 : Controller, (∀ h, flagClear (hw0 h Reg.TWCR % 256) = false) →
      (∀ h, hw0 h Reg.TWDR % 256 = 0) →
      (i2c_readAck hw0 shipped s).1 = 0 ∧
        (i2c_readAck hw0 shipped s).2.I2C_ErrorCode = s.I2C_ErrorCode ∧
        (i2c_readNAck hw0 shipped s).1 = 0 ∧
        (i2c_readNAck hw0 shipped s).2.I2C_ErrorCode = s.I2C_ErrorCode) := by
  rw [i2c_byte_timeout hw d s he (fun k _ => hsilent _),
    i2c_readAck_timeout hw s he (fun k _ => hsilent _),
    i2c_readNAck_timeout hw s he (fun k _ => hsilent _)]
  refine ⟨⟨?_, ?_, rfl⟩, ⟨rfl, ?_, rfl⟩, ⟨rfl, ?_, rfl⟩, ?_⟩
  · simp only [writeReg_log, goPattern_mod, writesOf_afterPolls, writesOf_append,
      writesOf_cons_write, writesOf_nil, List.append_assoc, List.cons_append, List.nil_append,
      Nat.mod_mod, Nat.mod_eq_of_lt hd]
  · simp only [writeReg_log, pollsOf_afterPolls, pollsOf_append, pollsOf_cons_write, pollsOf_nil]
  · simp only [writeReg_log, ackPattern_mod]
  · simp only [writeReg_log, goPattern_mod]
  · intro hw0 hready hzero
    rw [i2c_readAck_done hw0 s 0 (by omega) (fun k hk => absurd hk (Nat.not_lt_zero k))
        (hready _),
      i2c_readNAck_done hw0 s 0 (by omega) (fun k hk => absurd hk (Nat.not_lt_zero k))
        (hready _)]
    exact ⟨hzero _, rfl, hzero _, rfl⟩

/-- Concrete instance: the silent controller, byte 0x05, from program start. -/
theorem C4_silent_controller_timeouts_witness :
    (i2c_byte hwSilent shipped 0x05 State.initial).I2C_ErrorCode = 0x04 ∧
      i2c_readAck hwSilent shipped State.initial =
        (0, ⟨0x08, afterPolls hwSilent 80 [Access.write Reg.TWCR 0xC4], [(I2C_READACK, true)]⟩) ∧
      (i2c_readNAck hwSilent shipped State.initial).1 = 0 ∧
      (i2c_readNAck hwSilent shipped State.initial).2.I2C_ErrorCode = 0x10 := by
  have h := C4_silent_controller_timeouts hwSilent 0x05 State.initial
    (fun _ => by simp [hwSilent, flagClear]) (by decide) (by decide)
  refine ⟨h.1.2.2, ?_, h.2.2.1.1, h.2.2.1.2.2⟩
  rw [i2c_readAck_timeout hwSilent State.initial (by decide)
    (fun _ _ => by simp [hwSilent, flagClear, pollValue])]
  rfl

set_option maxRecDepth 100000 in
/-- Claim C5, evaluated on the code: `i2c_start` never re-arms `timeout` for the
address phase. With a controller that completes the START handshake on its
80th poll, the address phase is left with a counter of 1: one poll with the
flag clear sets the address-timeout bit (81 polls in all), although the very
next poll would have seen the flag. -/
theorem C5_address_phase_inherits_counter :
    (i2c_start hwLateStart shipped 0xA0 State.initial).steps =
        [(I2C_START, false), (I2C_SENDADRESS, true)] ∧
      (i2c_start hwLateStart shipped 0xA0 State.initial).I2C_ErrorCode
        = 1 <<< I2C_SENDADRESS ∧
      pollsOf (i2c_start hwLateStart shipped 0xA0 State.initial).log = 80 + 1 ∧
      flagClear
        (hwLateStart (i2c_start hwLateStart shipped 0xA0 State.initial).log Reg.TWCR % 256)
        = false := by
  decide

/-- Claim C6, evaluated on the code: with a 16 MHz CPU, a 50 kHz bus and
prescale 1 the build-time check passes and `SET_TWBR` is 152, but `i2c_init`
writes 24 to the bit-rate register: in `(uint8_t)SET_TWBR` the cast truncates
the numerator 304 to 48 before the division by 2. -/
theorem C6_init_divisor_truncated :
    buildCheck slowBus = true ∧ SET_TWBR slowBus = 152 ∧
      writesOf (i2c_init slowBus State.initial).log =
        [(Reg.TWSR, 0), (Reg.TWBR, 24), (Reg.TWCR, 1 <<< TWEN)] := by
  decide

/-- Claim C7. With the shipped configuration and the error code at 0,
`i2c_init(); i2c_start(0xA0); i2c_byte(0x05); i2c_stop();` against a
controller whose completion flag is set on every poll writes, in order,
status := 0x00, bit-rate := 12, control := `TWEN`, control :=
`TWINT|TWSTA|TWEN`, data := 0xA0, control := `TWINT|TWEN`, data := 0x05,
control := `TWINT|TWEN`, control := `TWINT|TWSTO|TWEN`; the error code ends
at 0; and exactly three control writes are followed by a poll (three polls
in all): start condition, address phase, byte. -/
theorem C7_end_to_end_trace (hw : Controller)
    (hready : ∀ h, flagClear (hw h Reg.TWCR % 256) = false) :
    writesOf (run hw shipped [Op.init, Op.start 0xA0, Op.byte 0x05, Op.stop] State.initial).log =
        [(Reg.TWSR, 0x00), (Reg.TWBR, 12), (Reg.TWCR, 1 <<< TWEN),
         (Reg.TWCR, (1 <<< TWINT) ||| (1 <<< TWSTA) ||| (1 <<< TWEN)),
         (Reg.TWDR, 0xA0), (Reg.TWCR, (1 <<< TWINT) ||| (1 <<< TWEN)),
         (Reg.TWDR, 0x05), (Reg.TWCR, (1 <<< TWINT) ||| (1 <<< TWEN)),
         (Reg.TWCR, (1 <<< TWINT) ||| (1 <<< TWSTO) ||| (1 <<< TWEN))] ∧
      (run hw shipped [Op.init, Op.start 0xA0, Op.byte 0x05, Op.stop]
        State.initial).I2C_ErrorCode = 0 ∧
      triggersOf (run hw shipped [Op.init, Op.start 0xA0, Op.byte 0x05, Op.stop]
        State.initial).log = 3 ∧
      pollsOf (run hw shipped [Op.init, Op.start 0xA0, Op.byte 0x05, Op.stop]
        State.initial).log = 3 := by
  simp only [run, exec]
  rw [i2c_byte_done hw _ _ 0 (by omega) (fun k hk => absurd hk (Nat.not_lt_zero k)) (hready _)]
  rw [i2c_start_address_phase hw _ _ 0 (by omega)
    (fun k hk => absurd hk (Nat.not_lt_zero k)) (hready _)]
  rw [pollLoop_done hw I2C_SENDADRESS 0 (80 - 0) _ (by omega)
    (fun k hk => absurd hk (Nat.not_lt_zero k)) (hready _)]
  have hinit : i2c_init shipped State.initial =
      ⟨0, [Access.write Reg.TWSR 0, Access.write Reg.TWBR 12,
        Access.write Reg.TWCR (1 <<< TWEN)], []⟩ := by decide
  rw [hinit]
  refine ⟨?_, rfl, ?_, ?_⟩
  · simp only [i2c_stop, writeReg_log, startPattern_mod, goPattern_mod, stopPattern_mod,
      writesOf_afterPolls, writesOf_append, writesOf_cons_write, writesOf_nil,
      List.append_assoc, List.cons_append, List.nil_append, Nat.reduceMod]
  · simp [i2c_stop, writeReg, afterPolls, triggersOf]
  · simp only [i2c_stop, writeReg_log, pollsOf_afterPolls, pollsOf_append, pollsOf_cons_write,
      pollsOf_nil]

/-- Concrete instance: the always-ready controller. -/
theorem C7_end_to_end_trace_witness :
    (run hwReady shipped [Op.init, Op.start 0xA0, Op.byte 0x05, Op.stop]
        State.initial).I2C_ErrorCode = 0 ∧
      triggersOf (run hwReady shipped [Op.init, Op.start 0xA0, Op.byte 0x05, Op.stop]
        State.initial).log = 3 := by
  have h := C7_end_to_end_trace hwReady (fun _ => by simp [hwReady, flagClear, TWINT])
  exact ⟨h.2.1, h.2.2.1⟩

/-! ## Error code: what one call and a sequence of calls can do -/

theorem i2c_init_err (c : Config) (s : State) :
    (i2c_init c s).I2C_ErrorCode = s.I2C_ErrorCode := by
  unfold i2c_init
  split_ifs <;> rfl

theorem i2c_init_steps (c : Config) (s : State) :
    (i2c_init c s).steps = s.steps := by
  unfold i2c_init
  split_ifs <;> rfl

theorem i2c_init_polls (c : Config) (s : State) :
    pollsOf (i2c_init c s).log = pollsOf s.log := by
  unfold i2c_init
  split_ifs <;>
    simp only [writeReg_log, pollsOf_append, pollsOf_cons_write, pollsOf_nil, Nat.add_zero]

theorem i2c_stop_polls (s : State) : pollsOf (i2c_stop s).log = pollsOf s.log := by
  simp only [i2c_stop, writeReg_log, pollsOf_append, pollsOf_cons_write, pollsOf_nil,
    Nat.add_zero]

/-- A poll loop either leaves the error code alone (no timeout return) or ORs
its own bit in (timeout return). -/
theorem pollLoop_err (hw : Controller) (bit t : Nat) (s : State)
    (he : s.I2C_ErrorCode < 256) (hb : bit < 8) :
    ((pollLoop hw bit t s).returned = false ∧
        (pollLoop hw bit t s).st.I2C_ErrorCode = s.I2C_ErrorCode) ∨
      ((pollLoop hw bit t s).returned = true ∧
        (pollLoop hw bit t s).st.I2C_ErrorCode = s.I2C_ErrorCode ||| (1 <<< bit)) := by
  have h := (pollLoop_effect hw bit t s).2.1
  cases hr : (pollLoop hw bit t s).returned with
  | false => left; rw [hr] at h; exact ⟨rfl, by simpa using h⟩
  | true =>
    right
    rw [hr] at h
    refine ⟨rfl, ?_⟩
    rw [h, if_pos rfl, lor_mask_mod _ _ he hb]

theorem i2c_start_err (hw : Controller) (c : Config) (addr : Nat) (s : State)
    (he : s.I2C_ErrorCode < 256) :
    (i2c_start hw c addr s).I2C_ErrorCode = s.I2C_ErrorCode ∨
      (i2c_start hw c addr s).I2C_ErrorCode = s.I2C_ErrorCode ||| (1 <<< I2C_START) ∨
      (i2c_start hw c addr s).I2C_ErrorCode = s.I2C_ErrorCode ||| (1 <<< I2C_SENDADRESS) := by
  unfold i2c_start
  simp only []
  rcases pollLoop_err hw I2C_START (timeoutInit c)
      (writeReg Reg.TWCR ((1 <<< TWINT) ||| (1 <<< TWSTA) ||| (1 <<< TWEN)) s)
      he (by decide) with ⟨hr, h1⟩ | ⟨hr, h1⟩
  · rw [hr]
    simp only [Bool.false_eq_true, if_false]
    rcases pollLoop_err hw I2C_SENDADRESS
        (pollLoop hw I2C_START (timeoutInit c)
          (writeReg Reg.TWCR ((1 <<< TWINT) ||| (1 <<< TWSTA) ||| (1 <<< TWEN)) s)).timeout
        (writeReg Reg.TWCR ((1 <<< TWINT) ||| (1 <<< TWEN))
          (writeReg Reg.TWDR (addr % 256)
            (pollLoop hw I2C_START (timeoutInit c)
              (writeReg Reg.TWCR ((1 <<< TWINT) ||| (1 <<< TWSTA) ||| (1 <<< TWEN)) s)).st))
        (by simpa only [writeReg_err, h1] using he) (by decide) with ⟨_, h2⟩ | ⟨_, h2⟩
    · left; rw [h2]; simpa only [writeReg_err] using h1
    · right; right; rw [h2]; simp only [writeReg_err] at h1 ⊢; rw [h1]
  · rw [hr]
    simp only [if_true]
    right; left
    simpa only [writeReg_err] using h1

theorem i2c_byte_err (hw : Controller) (c : Config) (d : Nat) (s : State)
    (he : s.I2C_ErrorCode < 256) :
    (i2c_byte hw c d s).I2C_ErrorCode = s.I2C_ErrorCode ∨
      (i2c_byte hw c d s).I2C_ErrorCode = s.I2C_ErrorCode ||| (1 <<< I2C_BYTE) := by
  unfold i2c_byte
  simp only []
  rcases pollLoop_err hw I2C_BYTE (timeoutInit c)
      (writeReg Reg.TWCR ((1 <<< TWINT) ||| (1 <<< TWEN)) (writeReg Reg.TWDR (d % 256) s))
      he (by decide) with ⟨_, h1⟩ | ⟨_, h1⟩
  · left; simpa only [writeReg_err] using h1
  · right; simpa only [writeReg_err] using h1

theorem i2c_readAck_err (hw : Controller) (c : Config) (s : State)
    (he : s.I2C_ErrorCode < 256) :
    (i2c_readAck hw c s).2.I2C_ErrorCode = s.I2C_ErrorCode ∨
      (i2c_readAck hw c s).2.I2C_ErrorCode = s.I2C_ErrorCode ||| (1 <<< I2C_READACK) := by
  unfold i2c_readAck
  simp only []
  rcases pollLoop_err hw I2C_READACK (timeoutInit c)
      (writeReg Reg.TWCR ((1 <<< TWINT) ||| (1 <<< TWEN) ||| (1 <<< TWEA)) s)
      he (by decide) with ⟨hr, h1⟩ | ⟨hr, h1⟩
  · left; rw [hr]; simpa only [writeReg_err] using h1
  · right; rw [hr]; simpa only [writeReg_err] using h1

theorem i2c_readNAck_err (hw : Controller) (c : Config) (s : State)
    (he : s.I2C_ErrorCode < 256) :
    (i2c_readNAck hw c s).2.I2C_ErrorCode = s.I2C_ErrorCode ∨
      (i2c_readNAck hw c s).2.I2C_ErrorCode = s.I2C_ErrorCode ||| (1 <<< I2C_READNACK) := by
  unfold i2c_readNAck
  simp only []
  rcases pollLoop_err hw I2C_READNACK (timeoutInit c)
      (writeReg Reg.TWCR ((1 <<< TWINT) ||| (1 <<< TWEN)) s)
      he (by decide) with ⟨hr, h1⟩ | ⟨hr, h1⟩
  · left; rw [hr]; simpa only [writeReg_err] using h1
  · right; rw [hr]; simpa only [writeReg_err] using h1

/-- One call ORs at most one of its own masks into the error code. -/
theorem exec_err (hw : Controller) (c : Config) (op : Op) (s : State)
    (he : s.I2C_ErrorCode < 256) :
    ∃ m, m ∈ 0 :: ownedMasks op ∧
      (exec hw c op s).I2C_ErrorCode = s.I2C_ErrorCode ||| m := by
  cases op with
  | init => exact ⟨0, by simp, by simp [exec, i2c_init_err]⟩
  | tx_start => exact ⟨0, by simp, by simp [exec, i2c_tx_start, i2c_init_err]⟩
  | stop => exact ⟨0, by simp, by simp [exec, i2c_stop]⟩
  | tx_stop => exact ⟨0, by simp, by simp [exec, i2c_tx_stop, i2c_stop]⟩
  | start a =>
    rcases i2c_start_err hw c a s he with h | h | h
    · exact ⟨0, by simp, by simpa [exec] using h⟩
    · exact ⟨1 <<< I2C_START, by simp [ownedMasks], by simpa [exec] using h⟩
    · exact ⟨1 <<< I2C_SENDADRESS, by simp [ownedMasks], by simpa [exec] using h⟩
  | tx_address a =>
    rcases i2c_start_err hw c a s he with h | h | h
    · exact ⟨0, by simp, by simpa [exec, i2c_tx_address] using h⟩
    · exact ⟨1 <<< I2C_START, by simp [ownedMasks], by simpa [exec, i2c_tx_address] using h⟩
    · exact ⟨1 <<< I2C_SENDADRESS, by simp [ownedMasks],
        by simpa [exec, i2c_tx_address] using h⟩
  | byte b =>
    rcases i2c_byte_err hw c b s he with h | h
    · exact ⟨0, by simp, by simpa [exec] using h⟩
    · exact ⟨1 <<< I2C_BYTE, by simp [ownedMasks], by simpa [exec] using h⟩
  | tx_byte b =>
    rcases i2c_byte_err hw c b s he with h | h
    · exact ⟨0, by simp, by simpa [exec, i2c_tx_byte] using h⟩
    · exact ⟨1 <<< I2C_BYTE, by simp [ownedMasks], by simpa [exec, i2c_tx_byte] using h⟩
  | readAck =>
    rcases i2c_readAck_err hw c s he with h | h
    · exact ⟨0, by simp, by simpa [exec] using h⟩
    · exact ⟨1 <<< I2C_READACK, by simp [ownedMasks], by simpa [exec] using h⟩
  | readNAck =>
    rcases i2c_readNAck_err hw c s he with h | h
    · exact ⟨0, by simp, by simpa [exec] using h⟩
    · exact ⟨1 <<< I2C_READNACK, by simp [ownedMasks], by simpa [exec] using h⟩

theorem ownedMasks_lt (op : Op) (m : Nat) (hm : m ∈ 0 :: ownedMasks op) : m < 2 ^ 8 := by
  cases op <;> simp [ownedMasks, I2C_START, I2C_SENDADRESS, I2C_BYTE, I2C_READACK,
    I2C_READNACK] at hm <;> omega

theorem exec_err_lt (hw : Controller) (c : Config) (op : Op) (s : State)
    (he : s.I2C_ErrorCode < 256) : (exec hw c op s).I2C_ErrorCode < 256 := by
  obtain ⟨m, hm, h⟩ := exec_err hw c op s he
  rw [h]
  exact @Nat.or_lt_two_pow s.I2C_ErrorCode m 8 he (ownedMasks_lt op m hm)

theorem exec_keeps_bits (hw : Controller) (c : Config) (op : Op) (s : State)
    (he : s.I2C_ErrorCode < 256) (i : Nat) (hi : s.I2C_ErrorCode.testBit i = true) :
    (exec hw c op s).I2C_ErrorCode.testBit i = true := by
  obtain ⟨m, _, h⟩ := exec_err hw c op s he
  rw [h, Nat.testBit_lor, hi, Bool.true_or]

theorem run_keeps_bits (hw : Controller) (c : Config) :
    ∀ (ops : List Op) (s : State), s.I2C_ErrorCode < 256 →
      ∀ i, s.I2C_ErrorCode.testBit i = true →
        (run hw c ops s).I2C_ErrorCode.testBit i = true := by
  intro ops
  induction ops with
  | nil => intro s _ i hi; exact hi
  | cons op ops ih =>
    intro s he i hi
    exact ih (exec hw c op s) (exec_err_lt hw c op s he) i (exec_keeps_bits hw c op s he i hi)

theorem run_stops (hw : Controller) (c : Config) :
    ∀ (n : Nat) (s : State),
      (run hw c (List.replicate n Op.stop) s).I2C_ErrorCode = s.I2C_ErrorCode ∧
        pollsOf (run hw c (List.replicate n Op.stop) s).log = pollsOf s.log := by
  intro n
  induction n with
  | zero => intro s; exact ⟨rfl, rfl⟩
  | succ n ih =>
    intro s
    have h := ih (exec hw c Op.stop s)
    simp only [List.replicate_succ, run]
    refine ⟨h.1.trans rfl, h.2.trans ?_⟩
    exact i2c_stop_polls s

/-- Claim C8. For every entry point, argument, prior error code `e` and
controller, the error code after the call is `e` OR-ed with at most one
mask owned by the entry point: start and `tx_address` bit 0 or bit 1 (one of
them at most), byte and `tx_byte` bit 2, readAck bit 3, readNAck bit 4, and
none for init, stop, `tx_start`, `tx_stop`, which leave the error code equal to
`e` and do not poll. So no sequence of calls clears a bit, and any number of
stops in a row changes neither the error code nor the number of polls. -/
theorem C8_error_code_only_grows (hw : Controller) (c : Config) (s : State)
    (he : s.I2C_ErrorCode < 256) :
    (∀ op : Op, ∃ m, m ∈ 0 :: ownedMasks op ∧
      (exec hw c op s).I2C_ErrorCode = s.I2C_ErrorCode ||| m) ∧
    (∀ op : Op, op ∈ [Op.init, Op.stop, Op.tx_start, Op.tx_stop] →
      (exec hw c op s).I2C_ErrorCode = s.I2C_ErrorCode ∧
        pollsOf (exec hw c op s).log = pollsOf s.log) ∧
    (∀ (ops : List Op) (i : Nat), s.I2C_ErrorCode.testBit i = true →
      (run hw c ops s).I2C_ErrorCode.testBit i = true) ∧
    (∀ n : Nat,
      (run hw c (List.replicate n Op.stop) s).I2C_ErrorCode = s.I2C_ErrorCode ∧
        pollsOf (run hw c (List.replicate n Op.stop) s).log = pollsOf s.log) := by
  refine ⟨fun op => exec_err hw c op s he, ?_, fun ops i hi => run_keeps_bits hw c ops s he i hi,
    fun n => run_stops hw c n s⟩
  intro op hop
  simp only [List.mem_cons, List.mem_singleton, List.not_mem_nil, or_false] at hop
  rcases hop with rfl | rfl | rfl | rfl
  · exact ⟨i2c_init_err c s, i2c_init_polls c s⟩
  · exact ⟨rfl, i2c_stop_polls s⟩
  · exact ⟨i2c_init_err c s, i2c_init_polls c s⟩
  · exact ⟨rfl, i2c_stop_polls s⟩

/-- Concrete instance: from program start, against the silent controller. -/
theorem C8_error_code_only_grows_witness :
    (run hwSilent shipped (List.replicate 3 Op.stop) State.initial).I2C_ErrorCode = 0 ∧
      (exec hwSilent shipped Op.init State.initial).I2C_ErrorCode = 0 := by
  have h := C8_error_code_only_grows hwSilent shipped State.initial (by decide)
  exact ⟨(h.2.2.2 3).1, (h.2.1 Op.init (by simp)).1⟩

/-! ## Error code against the record of handshake outcomes -/

theorem tracks_initial : Tracks State.initial := by
  refine ⟨by decide, fun N => ?_⟩
  simp [State.initial]

theorem tracks_writeReg (r : Reg) (v : Nat) (s : State) (h : Tracks s) :
    Tracks (writeReg r v s) := h

theorem tracks_readReg (hw : Controller) (r : Reg) (s : State) (h : Tracks s) :
    Tracks (readReg hw r s).2 := h

theorem tracks_pollLoop (hw : Controller) (bit t : Nat) (s : State) (hb : bit < 8)
    (h : Tracks s) : Tracks (pollLoop hw bit t s).st := by
  obtain ⟨hsteps, _, _⟩ := pollLoop_effect hw bit t s
  rcases pollLoop_err hw bit t s h.1 hb with ⟨hr, he⟩ | ⟨hr, he⟩
  · refine ⟨he ▸ h.1, fun N => ?_⟩
    rw [he, hsteps, hr, h.2 N]
    simp
  · refine ⟨?_, fun N => ?_⟩
    · rw [he, ← lor_mask_mod _ _ h.1 hb]
      exact Nat.mod_lt _ (by omega)
    · rw [he, hsteps, hr, testBit_lor_mask, Bool.or_eq_true, h.2 N]
      simp only [decide_eq_true_eq, List.mem_append, List.mem_singleton, Prod.mk.injEq,
        and_true]
      constructor
      · rintro (h1 | h1)
        · exact Or.inl h1
        · exact Or.inr h1.symm
      · rintro (h1 | h1)
        · exact Or.inl h1
        · exact Or.inr h1.symm

theorem tracks_i2c_init (c : Config) (s : State) (h : Tracks s) : Tracks (i2c_init c s) := by
  unfold Tracks
  rw [i2c_init_err, i2c_init_steps]
  exact h

theorem tracks_i2c_start (hw : Controller) (c : Config) (a : Nat) (s : State)
    (h : Tracks s) : Tracks (i2c_start hw c a s) := by
  unfold i2c_start
  simp only []
  split_ifs
  · exact tracks_pollLoop hw _ _ _ (by decide) (tracks_writeReg _ _ _ h)
  · exact tracks_pollLoop hw _ _ _ (by decide)
      (tracks_writeReg _ _ _ (tracks_writeReg _ _ _
        (tracks_pollLoop hw _ _ _ (by decide) (tracks_writeReg _ _ _ h))))

theorem tracks_i2c_byte (hw : Controller) (c : Config) (d : Nat) (s : State)
    (h : Tracks s) : Tracks (i2c_byte hw c d s) :=
  tracks_pollLoop hw _ _ _ (by decide) (tracks_writeReg _ _ _ (tracks_writeReg _ _ _ h))

theorem tracks_i2c_readAck (hw : Controller) (c : Config) (s : State)
    (h : Tracks s) : Tracks (i2c_readAck hw c s).2 := by
  unfold i2c_readAck
  simp only []
  split_ifs
  · exact tracks_pollLoop hw _ _ _ (by decide) (tracks_writeReg _ _ _ h)
  · exact tracks_readReg hw _ _ (tracks_pollLoop hw _ _ _ (by decide) (tracks_writeReg _ _ _ h))

theorem tracks_i2c_readNAck (hw : Controller) (c : Config) (s : State)
    (h : Tracks s) : Tracks (i2c_readNAck hw c s).2 := by
  unfold i2c_readNAck
  simp only []
  split_ifs
  · exact tracks_pollLoop hw _ _ _ (by decide) (tracks_writeReg _ _ _ h)
  · exact tracks_readReg hw _ _ (tracks_pollLoop hw _ _ _ (by decide) (tracks_writeReg _ _ _ h))

theorem tracks_exec (hw : Controller) (c : Config) (op : Op) (s : State) (h : Tracks s) :
    Tracks (exec hw c op s) := by
  cases op with
  | init => exact tracks_i2c_init c s h
  | tx_start => exact tracks_i2c_init c s h
  | stop => exact tracks_writeReg _ _ _ h
  | tx_stop => exact tracks_writeReg _ _ _ h
  | start a => exact tracks_i2c_start hw c a s h
  | tx_address a => exact tracks_i2c_start hw c a s h
  | byte b => exact tracks_i2c_byte hw c b s h
  | tx_byte b => exact tracks_i2c_byte hw c b s h
  | readAck => exact tracks_i2c_readAck hw c s h
  | readNAck => exact tracks_i2c_readNAck hw c s h

theorem tracks_run (hw : Controller) (c : Config) :
    ∀ (ops : List Op) (s : State), Tracks s → Tracks (run hw c ops s) := by
  intro ops
  induction ops with
  | nil => intro s h; exact h
  | cons op ops ih => intro s h; exact ih _ (tracks_exec hw c op s h)

set_option maxRecDepth 100000 in
/-- Claim C9 as stated fails: two `i2c_byte` calls from program start, the first
against a silent bus, the second completing on its first poll. The latest
byte handshake did not time out, yet bit 2 is still set. -/
theorem C9_bit_survives_later_success :
    ¬ ((run hwWakes shipped [Op.byte 5, Op.byte 5] State.initial).I2C_ErrorCode.testBit I2C_BYTE
          = true ↔
        lastOutcome I2C_BYTE (run hwWakes shipped [Op.byte 5, Op.byte 5] State.initial).steps
          = some true) := by
  decide

/-- Claim C9, amended. In every state reached from program start (error code 0)
by any sequence of driver calls against any controller, bit `N` of the error
code is set exactly when some execution of handshake step `N` so far timed
out; it is clear exactly when that step never ran or never timed out. A later
completion of the step does not clear the bit. -/
theorem C9_bit_records_any_timeout (hw : Controller) (c : Config) (ops : List Op) (N : Nat) :
    (run hw c ops State.initial).I2C_ErrorCode.testBit N = true ↔
      (N, true) ∈ (run hw c ops State.initial).steps :=
  (tracks_run hw c ops State.initial tracks_initial).2 N

/-- The contract follows from the two closed forms of a call. -/
theorem budgetContract_of (hw : Controller) (bit : Nat) (h0 : List Access) (s s1 : State)
    (htimeout : (∀ k, k < 80 → flagClear (pollValue hw h0 k) = true) →
      s1.steps = s.steps ++ [(bit, true)] ∧
        s1.I2C_ErrorCode = s.I2C_ErrorCode ||| (1 <<< bit) ∧
        pollsOf s1.log = pollsOf s.log + 80)
    (hdone : ∀ n, n < 80 → (∀ k, k < n → flagClear (pollValue hw h0 k) = true) →
      flagClear (pollValue hw h0 n) = false →
      s1.steps = s.steps ++ [(bit, false)] ∧
        s1.I2C_ErrorCode = s.I2C_ErrorCode ∧
        pollsOf s1.log = pollsOf s.log + (n + 1)) :
    BudgetContract hw bit h0 s s1 := by
  refine ⟨?_, ⟨?_, fun h => (htimeout h).1⟩, fun h => (htimeout h).2, hdone⟩
  · rcases clear_or_first_set hw h0 80 with hall | ⟨n, hn, hc, hs⟩
    · rw [(htimeout hall).2.2]
    · rw [(hdone n hn hc hs).2.2]; omega
  · intro hsteps
    rcases clear_or_first_set hw h0 80 with hall | ⟨n, hn, hc, hs⟩
    · exact hall
    · have h1 := (hdone n hn hc hs).1
      rw [hsteps] at h1
      have h2 := List.append_cancel_left h1
      simp at h2

/-- Claim C10. With the shipped clocks the counter of `i2c_byte`, `i2c_readAck`
and `i2c_readNAck` starts at (16000000/400000)*2 = 80. For every controller,
each of the three calls reads the completion flag at most 80 times; it takes
its timeout branch exactly when the flag read clear on each of the first 80
polls (then it polled exactly 80 times and set its bit); and when the flag
is first seen on poll `n + 1` with `n < 80`, poll 80 included, it polled
exactly `n + 1` times and left the error code unchanged. -/
theorem C10_eighty_poll_budget (hw : Controller) (d : Nat) (s : State)
    (he : s.I2C_ErrorCode < 256) :
    timeoutInit shipped = 80 ∧
    BudgetContract hw I2C_BYTE
      (s.log ++ [Access.write Reg.TWDR (d % 256),
        Access.write Reg.TWCR ((1 <<< TWINT) ||| (1 <<< TWEN))])
      s (i2c_byte hw shipped d s) ∧
    BudgetContract hw I2C_READACK
      (s.log ++ [Access.write Reg.TWCR ((1 <<< TWINT) ||| (1 <<< TWEN) ||| (1 <<< TWEA))])
      s (i2c_readAck hw shipped s).2 ∧
    BudgetContract hw I2C_READNACK
      (s.log ++ [Access.write Reg.TWCR ((1 <<< TWINT) ||| (1 <<< TWEN))])
      s (i2c_readNAck hw shipped s).2 := by
  refine ⟨timeoutInit_shipped, ?_, ?_, ?_⟩
  · apply budgetContract_of
    · intro hall
      rw [i2c_byte_timeout hw d s he (by
        simpa only [writeReg_log, goPattern_mod, Nat.mod_mod, List.append_assoc,
          List.cons_append, List.nil_append] using hall)]
      refine ⟨rfl, rfl, ?_⟩
      simp only [writeReg_log, pollsOf_afterPolls, pollsOf_append, pollsOf_cons_write,
        pollsOf_nil, Nat.add_zero]
    · intro n hn hc hs
      rw [i2c_byte_done hw d s n hn
        (by simpa only [writeReg_log, goPattern_mod, Nat.mod_mod, List.append_assoc,
          List.cons_append, List.nil_append] using hc)
        (by simpa only [writeReg_log, goPattern_mod, Nat.mod_mod, List.append_assoc,
          List.cons_append, List.nil_append] using hs)]
      refine ⟨rfl, rfl, ?_⟩
      simp only [writeReg_log, pollsOf_afterPolls, pollsOf_append, pollsOf_cons_write,
        pollsOf_nil, Nat.add_zero]
  · apply budgetContract_of
    · intro hall
      rw [i2c_readAck_timeout hw s he (by
        simpa only [writeReg_log, ackPattern_mod] using hall)]
      refine ⟨rfl, rfl, ?_⟩
      simp only [writeReg_log, pollsOf_afterPolls, pollsOf_append, pollsOf_cons_write,
        pollsOf_nil, Nat.add_zero]
    · intro n hn hc hs
      rw [i2c_readAck_done hw s n hn
        (by simpa only [writeReg_log, ackPattern_mod] using hc)
        (by simpa only [writeReg_log, ackPattern_mod] using hs)]
      refine ⟨rfl, rfl, ?_⟩
      simp only [readReg, writeReg_log, pollsOf_afterPolls, pollsOf_append, pollsOf_cons_write,
        pollsOf_cons_data, pollsOf_nil, Nat.add_zero]
  · apply budgetContract_of
    · intro hall
      rw [i2c_readNAck_timeout hw s he (by
        simpa only [writeReg_log, goPattern_mod] using hall)]
      refine ⟨rfl, rfl, ?_⟩
      simp only [writeReg_log, pollsOf_afterPolls, pollsOf_append, pollsOf_cons_write,
        pollsOf_nil, Nat.add_zero]
    · intro n hn hc hs
      rw [i2c_readNAck_done hw s n hn
        (by simpa only [writeReg_log, goPattern_mod] using hc)
        (by simpa only [writeReg_log, goPattern_mod] using hs)]
      refine ⟨rfl, rfl, ?_⟩
      simp only [readReg, writeReg_log, pollsOf_afterPolls, pollsOf_append, pollsOf_cons_write,
        pollsOf_cons_data, pollsOf_nil, Nat.add_zero]

/-- Concrete instance: byte 0x05 from program start. The always-ready controller
completes the call on its first poll; the silent controller makes it time
out after 80 polls. -/
theorem C10_eighty_poll_budget_witness :
    ((i2c_byte hwReady shipped 0x05 State.initial).I2C_ErrorCode = 0 ∧
      pollsOf (i2c_byte hwReady shipped 0x05 State.initial).log = 1) ∧
    ((i2c_byte hwSilent shipped 0x05 State.initial).I2C_ErrorCode = 0x04 ∧
      pollsOf (i2c_byte hwSilent shipped 0x05 State.initial).log = 80) := by
  have h := (C10_eighty_poll_budget hwReady 0x05 State.initial (by decide)).2.1.2.2.2 0
    (by decide) (fun k hk => absurd hk (Nat.not_lt_zero k)) (by decide)
  have h0 := (C10_eighty_poll_budget hwSilent 0x05 State.initial (by decide)).2.1.2.2.1
    (fun _ _ => by simp [hwSilent, flagClear, pollValue])
  exact ⟨⟨h.2.1, h.2.2⟩, h0⟩

end I2C
